import Mathlib

/-!
Shallow embedding of src/src/main.rs of the sumo-strategy-prober
simulator.  Floating point (f32) values are modelled as real numbers;
the Rust float remainder operator (remainder with the sign of the
dividend) is modelled by rmod below.  A panicking conversion is
modelled by Option (none = panic).  The two-element arrays
of type [SumoState; 2] and [SumoReq; 2] are modelled as pairs.
-/

noncomputable section

namespace Sumo

/-- Truncation toward zero, the rounding used by the Rust float remainder. -/
def rtrunc (z : ℝ) : ℤ := if 0 ≤ z then ⌊z⌋ else ⌈z⌉

/-- Rust float remainder of x by y, namely x - y * trunc (x / y)
(takes the sign of the dividend). -/
def rmod (x y : ℝ) : ℝ := x - y * (rtrunc (x / y) : ℝ)

/-- Rust constant X_INIT_POS = 10.0. -/
def X_INIT_POS : ℝ := 10

/-- Rust constant SUMO_SIZE = 2.5, the side of a robot square. -/
def SUMO_SIZE : ℝ := 2.5

/-- Rust constant TATAMI_SIZE = 20.0, the arena radius. -/
def TATAMI_SIZE : ℝ := 20

/-- Rust constant PUSH_FRICTION = 1.0. -/
def PUSH_FRICTION : ℝ := 1

/-- Rust constant M = SUMO_SIZE * 4.0 * (SQRT_2 - 1.0) / PI. -/
def M : ℝ := SUMO_SIZE * 4 * (Real.sqrt 2 - 1) / Real.pi

/-- Rust struct Vec2 with two f32 fields x and y. -/
@[ext]
structure Vec2 where
  x : ℝ
  y : ℝ

/-- Rust constant ORIGIN, the zero vector. -/
def ORIGIN : Vec2 := ⟨0, 0⟩

namespace Vec2

/-- Componentwise addition of vectors (the Add impl for Vec2). -/
def add (a b : Vec2) : Vec2 := ⟨a.x + b.x, a.y + b.y⟩

/-- Componentwise subtraction of vectors (the Sub impl for Vec2). -/
def sub (a b : Vec2) : Vec2 := ⟨a.x - b.x, a.y - b.y⟩

/-- Rust method origin_dir, computing atan(x / y). -/
def origin_dir (v : Vec2) : ℝ := Real.arctan (v.x / v.y)

/-- Rust method dist, the Euclidean distance between two vectors. -/
def dist (a b : Vec2) : ℝ :=
  let vstate := a.sub b
  Real.sqrt (vstate.x * vstate.x + vstate.y * vstate.y)

@[simp] theorem add_x (a b : Vec2) : (a.add b).x = a.x + b.x := rfl
@[simp] theorem add_y (a b : Vec2) : (a.add b).y = a.y + b.y := rfl
@[simp] theorem sub_x (a b : Vec2) : (a.sub b).x = a.x - b.x := rfl
@[simp] theorem sub_y (a b : Vec2) : (a.sub b).y = a.y - b.y := rfl

end Vec2

/-- Rust enum Round with the three round variants. -/
inductive Round where
  | Round1
  | Round2
  | Round3
deriving DecidableEq

/-- Conversion of a round index to a Round (the From u8 impl); the
panicking default arm is modelled as none. -/
def Round.fromU8 (v : Nat) : Option Round :=
  match v with
  | 1 => some Round.Round1
  | 2 => some Round.Round2
  | 3 => some Round.Round3
  | _ => none

/-- Rust type alias Corners, an array of four Vec2, as a record of the
four entries in order. -/
@[ext]
structure Corners where
  c1 : Vec2
  c2 : Vec2
  c3 : Vec2
  c4 : Vec2

/-- Map over the four corners (array map). -/
def Corners.map (f : Vec2 → Vec2) (c : Corners) : Corners :=
  ⟨f c.c1, f c.c2, f c.c3, f c.c4⟩

/-- Rust struct SumoState with fields center, dir and corners. -/
@[ext]
structure SumoState where
  center : Vec2
  dir : ℝ
  corners : Corners

/-- Rust struct SumoReq with the two motor speeds. -/
@[ext]
structure SumoReq where
  motor_l : ℝ
  motor_r : ℝ

/-- Rust constant REQ_CASTER, the zero robot state. -/
def REQ_CASTER : SumoState :=
  { center := ORIGIN, dir := 0, corners := ⟨ORIGIN, ORIGIN, ORIGIN, ORIGIN⟩ }

/-- Translation of a robot state by a vector (the Add Vec2 impl for SumoState). -/
def SumoState.addVec (s : SumoState) (rhs : Vec2) : SumoState :=
  { center := rhs.add s.center
    dir := s.dir
    corners := s.corners.map (fun corner => corner.add rhs) }

/-- Rust method radius_towards of SumoState. -/
def SumoState.radius_towards (s : SumoState) (theta : ℝ) : ℝ :=
  let rel_dir := rmod (theta - s.dir) (Real.pi / 2)
  if rel_dir ≤ Real.pi / 4 then
    M * rel_dir + SUMO_SIZE
  else
    M * (Real.pi / 2 - rel_dir) + SUMO_SIZE

/-- Rust method vel of SumoReq. -/
def SumoReq.vel (r : SumoReq) : ℝ := (r.motor_l + r.motor_r) / 2

/-- Differential-drive kinematic step (the Add SumoReq impl for SumoState). -/
def SumoState.addReq (s : SumoState) (sstate : SumoReq) : SumoState :=
  let delta_teta := rmod (((sstate.motor_r - sstate.motor_l) / SUMO_SIZE) + s.dir) (2 * Real.pi)
  let vel := sstate.vel
  let dv : Vec2 := ⟨Real.cos delta_teta * vel, Real.sin delta_teta * vel⟩
  { center := s.center.add dv
    dir := delta_teta
    corners := s.corners.map (fun corner => corner.add dv) }

/-- Rust function round_start, the initial state pair of a round. -/
def round_start (round : Round) : SumoState × SumoState :=
  (⟨⟨X_INIT_POS, 0⟩,
    match round with
    | Round.Round1 => Real.pi
    | Round.Round2 => Real.pi / 2
    | Round.Round3 => 0,
    ⟨⟨X_INIT_POS + SUMO_SIZE / 2, SUMO_SIZE / 2⟩,
     ⟨X_INIT_POS + SUMO_SIZE / 2, -SUMO_SIZE / 2⟩,
     ⟨X_INIT_POS - SUMO_SIZE / 2, SUMO_SIZE / 2⟩,
     ⟨X_INIT_POS - SUMO_SIZE / 2, -SUMO_SIZE / 2⟩⟩⟩,
   ⟨⟨-X_INIT_POS, 0⟩,
    match round with
    | Round.Round1 => 0
    | Round.Round2 => 3 * Real.pi / 2
    | Round.Round3 => Real.pi,
    ⟨⟨-X_INIT_POS + SUMO_SIZE / 2, SUMO_SIZE / 2⟩,
     ⟨-X_INIT_POS + SUMO_SIZE / 2, -SUMO_SIZE / 2⟩,
     ⟨-X_INIT_POS - SUMO_SIZE / 2, SUMO_SIZE / 2⟩,
     ⟨-X_INIT_POS - SUMO_SIZE / 2, -SUMO_SIZE / 2⟩⟩⟩)

/-- Rust function update, one physics tick: provisional kinematic states,
collision test and push resolution, then the tatami boundary test.  The
returned Option models Continuing (some pair) versus round over (none). -/
def update (sys : SumoState × SumoState) (reqs : SumoReq × SumoReq) :
    Option (SumoState × SumoState) :=
  let sysl := sys.1
  let sysr := sys.2
  let reql := reqs.1
  let reqr := reqs.2
  let sy0 := sysl.addReq reql
  let sy1 := sysr.addReq reqr
  let theta := (sy0.center.sub sy1.center).origin_dir
  let sy_s :=
    if sysl.center.dist sysr.center
        < sy0.radius_towards theta + sy1.radius_towards theta then
      let vatt := reqr.vel - reql.vel
      let gdir := (REQ_CASTER.addReq reqr).dir
      let vec_push : Vec2 :=
        ⟨Real.cos gdir * vatt / PUSH_FRICTION, Real.sin gdir * vatt / PUSH_FRICTION⟩
      if 0 < vatt then
        (sysl.addVec vec_push, sysr.addVec (ORIGIN.sub vec_push))
      else
        (sysl.addVec (ORIGIN.sub vec_push), sysr.addVec (ORIGIN.sub (ORIGIN.sub vec_push)))
    else (sy0, sy1)
  if sysl.center.dist ORIGIN < TATAMI_SIZE ∧ sysr.center.dist ORIGIN < TATAMI_SIZE then
    some sy_s
  else
    none

/-- Rust function calc_ir, the directional infrared-sensor model. -/
def calc_ir (s1 s2 : SumoState) (dist : ℝ) : ℝ :=
  let mm :=
    List.foldl (fun (a : ℝ × ℝ) t => (min a.1 a.2, max a.2 t)) (0, 0)
      [s2.corners.c1.origin_dir, s2.corners.c2.origin_dir,
       s2.corners.c3.origin_dir, s2.corners.c4.origin_dir]
  if s1.dir ≤ mm.2 ∧ mm.1 ≤ s1.dir then dist else 0

/-- Modelled from the spec: the spec states the kinematics with a timestep
constant STEP_SIZE, which is absent from src/src/main.rs; the code applies
the angular formula with a unit step, so STEP_SIZE is 1. -/
def STEP_SIZE : ℝ := 1

/-- The constant all-zero strategy used in the fixed-point scenario. -/
def zero_strategy : ℝ → SumoReq := fun _ => ⟨0, 0⟩

/-- The driver loop of probe_strategy specialised to Round 1 with both
strategies equal to zero_strategy: the state pair after n ticks
(none once the round has ended). -/
def probe_round1_zero : ℕ → Option (SumoState × SumoState)
  | 0 => some (round_start Round.Round1)
  | n + 1 =>
    (probe_round1_zero n).bind fun sym_state =>
      let d := sym_state.1.center.dist sym_state.2.center
      update sym_state
        (zero_strategy (calc_ir sym_state.1 sym_state.2 d),
         zero_strategy (calc_ir sym_state.2 sym_state.1 d))

-- =====================================================================
-- Helper lemmas about rmod and the geometry
-- =====================================================================

theorem rtrunc_zero : rtrunc 0 = 0 := by
  simp [rtrunc]

theorem rmod_zero_left (y : ℝ) : rmod 0 y = 0 := by
  simp [rmod, rtrunc]

theorem rmod_eq_self {x y : ℝ} (hy : 0 < y) (h0 : 0 ≤ x) (h1 : x < y) :
    rmod x y = x := by
  have hq0 : 0 ≤ x / y := div_nonneg h0 hy.le
  have hq1 : x / y < 1 := (div_lt_one hy).mpr h1
  have ht : rtrunc (x / y) = 0 := by
    rw [rtrunc, if_pos hq0]
    exact Int.floor_eq_zero_iff.mpr ⟨hq0, hq1⟩
  rw [rmod, ht]
  push_cast
  ring

theorem rmod_eq_self_of_abs {x y : ℝ} (hy : 0 < y) (h : |x| < y) :
    rmod x y = x := by
  rcases le_or_lt 0 x with hx | hx
  · exact rmod_eq_self hy hx (lt_of_abs_lt h)
  · have h1 : -y < x := neg_lt_of_abs_lt h
    have hq0 : x / y < 0 := div_neg_of_neg_of_pos hx hy
    have ht : rtrunc (x / y) = 0 := by
      rw [rtrunc, if_neg (not_le.mpr hq0)]
      refine Int.ceil_eq_zero_iff.mpr ⟨?_, hq0.le⟩
      · show (-1 : ℝ) < x / y
        rw [lt_div_iff hy]
        linarith
    rw [rmod, ht]
    push_cast
    ring

theorem rmod_int_mul (n : ℤ) {y : ℝ} (hy : y ≠ 0) : rmod (n * y) y = 0 := by
  have hq : (n : ℝ) * y / y = (n : ℝ) := by
    field_simp
  have ht : rtrunc ((n : ℝ) * y / y) = n := by
    rw [hq, rtrunc]
    split
    · exact Int.floor_intCast n
    · exact Int.ceil_intCast n
  rw [rmod, ht]
  ring

theorem rmod_eq_sub {x y : ℝ} (hy : 0 < y) (h1 : y ≤ x) (h2 : x < 2 * y) :
    rmod x y = x - y := by
  have hq1 : 1 ≤ x / y := (one_le_div hy).mpr h1
  have hq2 : x / y < 2 := by
    rw [div_lt_iff hy]
    linarith
  have ht : rtrunc (x / y) = 1 := by
    rw [rtrunc, if_pos (by linarith : (0:ℝ) ≤ x / y)]
    rw [Int.floor_eq_iff]
    constructor
    · exact_mod_cast hq1
    · push_cast
      linarith
  rw [rmod, ht]
  push_cast
  ring

theorem sqrt_eq_of_sq {a b : ℝ} (hb : 0 ≤ b) (h : a = b ^ 2) :
    Real.sqrt a = b := by
  rw [h, Real.sqrt_sq hb]

/-- Evaluation of the corner fold of calc_ir: the first (min) component
starts at 0, is only ever combined with the second component, which stays
nonnegative, and therefore remains 0; the second component accumulates
max 0 of the four bearings. -/
theorem calc_ir_fold (t1 t2 t3 t4 : ℝ) :
    List.foldl (fun (a : ℝ × ℝ) t => (min a.1 a.2, max a.2 t)) (0, 0) [t1, t2, t3, t4]
      = (0, max (max (max (max 0 t1) t2) t3) t4) := by
  have h1 : (0 : ℝ) ≤ max 0 t1 := le_max_left _ _
  have h2 : (0 : ℝ) ≤ max (max 0 t1) t2 := h1.trans (le_max_left _ _)
  have h3 : (0 : ℝ) ≤ max (max (max 0 t1) t2) t3 := h2.trans (le_max_left _ _)
  simp only [List.foldl, min_self, min_eq_left h1, min_eq_left h2, min_eq_left h3]

theorem dist_eval (x1 y1 x2 y2 : ℝ) :
    Vec2.dist ⟨x1, y1⟩ ⟨x2, y2⟩
      = Real.sqrt ((x1 - x2) * (x1 - x2) + (y1 - y2) * (y1 - y2)) := rfl

theorem dist_origin_eval (x y : ℝ) :
    Vec2.dist ⟨x, y⟩ ORIGIN = Real.sqrt (x * x + y * y) := by
  rw [ORIGIN, dist_eval]
  congr 1
  ring

/-- Evaluation of the kinematic step once the heading remainder is known. -/
theorem addReq_eval (s : SumoState) (r : SumoReq) (d' : ℝ)
    (hd : rmod ((r.motor_r - r.motor_l) / SUMO_SIZE + s.dir) (2 * Real.pi) = d') :
    s.addReq r =
      ⟨s.center.add ⟨Real.cos d' * r.vel, Real.sin d' * r.vel⟩, d',
       s.corners.map (fun c => c.add ⟨Real.cos d' * r.vel, Real.sin d' * r.vel⟩)⟩ := by
  simp only [SumoState.addReq, hd]

/-- A zero motor command leaves a state with heading in [0, 2π) unchanged. -/
theorem addReq_zero (s : SumoState) (h0 : 0 ≤ s.dir) (h1 : s.dir < 2 * Real.pi) :
    s.addReq ⟨0, 0⟩ = s := by
  have hd : rmod (((0:ℝ) - 0) / SUMO_SIZE + s.dir) (2 * Real.pi) = s.dir := by
    rw [show ((0:ℝ) - 0) / SUMO_SIZE + s.dir = s.dir by rw [SUMO_SIZE]; ring]
    exact rmod_eq_self (by positivity) h0 h1
  rw [addReq_eval _ _ _ hd]
  have hv : SumoReq.vel ⟨0, 0⟩ = 0 := by simp [SumoReq.vel]
  rw [hv]
  ext <;> simp [Corners.map, Vec2.add]

/-- When the relative direction remainder vanishes the directional radius
is exactly SUMO_SIZE. -/
theorem radius_towards_of_rel_zero (s : SumoState) (theta : ℝ)
    (h : rmod (theta - s.dir) (Real.pi / 2) = 0) :
    s.radius_towards theta = SUMO_SIZE := by
  simp only [SumoState.radius_towards, h]
  rw [if_pos (by positivity : (0:ℝ) ≤ Real.pi / 4)]
  ring

/-- Evaluation of update when the collision test fails. -/
theorem update_no_collision (sysl sysr : SumoState) (reql reqr : SumoReq)
    (hcol : ¬ (sysl.center.dist sysr.center
        < (sysl.addReq reql).radius_towards
            (((sysl.addReq reql).center.sub (sysr.addReq reqr).center).origin_dir)
          + (sysr.addReq reqr).radius_towards
            (((sysl.addReq reql).center.sub (sysr.addReq reqr).center).origin_dir))) :
    update (sysl, sysr) (reql, reqr) =
      if sysl.center.dist ORIGIN < TATAMI_SIZE ∧ sysr.center.dist ORIGIN < TATAMI_SIZE then
        some (sysl.addReq reql, sysr.addReq reqr)
      else none := by
  simp only [update]
  rw [if_neg hcol]

/-- A corner record of four copies of the origin, used in the concrete
scenarios below. -/
def K0 : Corners := ⟨ORIGIN, ORIGIN, ORIGIN, ORIGIN⟩

-- =====================================================================
-- Claim theorems
-- =====================================================================

/-- C8: the round-index conversion maps 1, 2, 3 to Round1, Round2, Round3,
and on every other index (in particular every other u8 value) it takes the
fatal panicking arm, modelled as none, rather than returning a round. -/
theorem claim_C8_fromU8 :
    Round.fromU8 1 = some Round.Round1 ∧ Round.fromU8 2 = some Round.Round2 ∧
    Round.fromU8 3 = some Round.Round3 ∧
    ∀ v : Nat, Round.fromU8 v = none ↔ v ≠ 1 ∧ v ≠ 2 ∧ v ≠ 3 := by
  refine ⟨rfl, rfl, rfl, fun v => ?_⟩
  match v with
  | 0 => simp [Round.fromU8]
  | 1 => simp [Round.fromU8]
  | 2 => simp [Round.fromU8]
  | 3 => simp [Round.fromU8]
  | n + 4 =>
    have h : Round.fromU8 (n + 4) = none := rfl
    rw [h]
    constructor
    · intro _
      omega
    · intro _
      rfl

/-- C10: when the observer heading is exactly 0, calc_ir returns the given
distance for every target and distance: the min component of the corner
fold never incorporates a corner bearing and stays 0, while the max
component is at least 0, so heading 0 always lies inside the span. -/
theorem claim_C10_calc_ir_zero_heading (c : Vec2) (cr : Corners)
    (s2 : SumoState) (d : ℝ) :
    calc_ir ⟨c, 0, cr⟩ s2 d = d := by
  have hmax : ∀ t1 t2 t3 t4 : ℝ, (0:ℝ) ≤ max (max (max (max 0 t1) t2) t3) t4 :=
    fun t1 t2 t3 t4 =>
      (((le_max_left 0 t1).trans (le_max_left _ t2)).trans
          (le_max_left _ t3)).trans (le_max_left _ t4)
  simp only [calc_ir, calc_ir_fold]
  rw [if_pos]
  exact ⟨hmax _ _ _ _, le_refl 0⟩

/-- C6 (amended): calc_ir returns the distance exactly when the observer
heading lies in the interval from 0 to max(0, b1, b2, b3, b4), with bi the
origin-bearings of the four target corners: the min side of the folded span
never incorporates a corner bearing and stays 0, so a heading below the
least corner bearing but inside that interval still reads the distance. -/
theorem claim_C6_calc_ir_span (s1 s2 : SumoState) (d : ℝ) :
    calc_ir s1 s2 d =
      if s1.dir ≤ max (max (max (max 0 s2.corners.c1.origin_dir)
              s2.corners.c2.origin_dir) s2.corners.c3.origin_dir)
            s2.corners.c4.origin_dir
          ∧ 0 ≤ s1.dir then d else 0 := by
  simp only [calc_ir, calc_ir_fold]

/-- C6 counterexample: with every target corner at (1, 1), of bearing π/4,
the corner-bearing span of the claim is the single point π/4; an observer
heading of π/8 lies strictly outside it, yet calc_ir returns the distance 5
rather than 0. -/
theorem claim_C6_cx :
    Real.pi / 8 < Vec2.origin_dir ⟨1, 1⟩ ∧
    calc_ir ⟨ORIGIN, Real.pi / 8, ⟨ORIGIN, ORIGIN, ORIGIN, ORIGIN⟩⟩
        ⟨ORIGIN, 0, ⟨⟨1, 1⟩, ⟨1, 1⟩, ⟨1, 1⟩, ⟨1, 1⟩⟩⟩ 5 = 5 ∧ (5 : ℝ) ≠ 0 := by
  have hpi := Real.pi_pos
  have hb : Vec2.origin_dir ⟨1, 1⟩ = Real.pi / 4 := by
    simp [Vec2.origin_dir, Real.arctan_one]
  refine ⟨by rw [hb]; linarith, ?_, by norm_num⟩
  simp only [calc_ir, calc_ir_fold, hb]
  have hc : max (max (max (max 0 (Real.pi / 4)) (Real.pi / 4)) (Real.pi / 4))
      (Real.pi / 4) = Real.pi / 4 := by
    rw [max_eq_right (by positivity : (0:ℝ) ≤ Real.pi / 4), max_self, max_self, max_self]
  rw [hc, if_pos]
  exact ⟨by linarith, by positivity⟩

/-- C3 (amended): radius_towards computes the piecewise-linear square
radius with base offset SUMO_SIZE (not SUMO_SIZE / 2): with rel the Rust
remainder of (theta - dir) by π/2 and slope SUMO_SIZE * 4 * (√2 - 1) / π,
the result is slope * rel + SUMO_SIZE when rel ≤ π/4 and
slope * (π/2 - rel) + SUMO_SIZE otherwise. -/
theorem claim_C3_radius_formula (s : SumoState) (theta : ℝ) :
    s.radius_towards theta =
      if rmod (theta - s.dir) (Real.pi / 2) ≤ Real.pi / 4 then
        SUMO_SIZE * 4 * (Real.sqrt 2 - 1) / Real.pi
            * rmod (theta - s.dir) (Real.pi / 2) + SUMO_SIZE
      else
        SUMO_SIZE * 4 * (Real.sqrt 2 - 1) / Real.pi
            * (Real.pi / 2 - rmod (theta - s.dir) (Real.pi / 2)) + SUMO_SIZE := by
  simp only [SumoState.radius_towards, M]

/-- C3 counterexample: for the zero robot state and bearing 0 the relative
direction is 0 and radius_towards returns SUMO_SIZE = 2.5, which differs
from the value M * 0 + SUMO_SIZE / 2 = 1.25 stated by the claim. -/
theorem claim_C3_cx :
    SumoState.radius_towards REQ_CASTER 0 = SUMO_SIZE ∧
    SUMO_SIZE ≠ M * rmod (0 - REQ_CASTER.dir) (Real.pi / 2) + SUMO_SIZE / 2 := by
  have h0 : rmod (0 - REQ_CASTER.dir) (Real.pi / 2) = 0 := by
    simp [REQ_CASTER, rmod_zero_left]
  constructor
  · simp only [SumoState.radius_towards, h0]
    rw [if_pos (by positivity : (0:ℝ) ≤ Real.pi / 4)]
    ring
  · rw [h0, mul_zero, zero_add]
    rw [SUMO_SIZE]
    norm_num

/-- C4: the kinematic step sets the new heading to the Rust remainder of
old heading + STEP_SIZE * (motor_r - motor_l) / SUMO_SIZE by 2π, moves the
center by the displacement (cos(new) * v, sin(new) * v) with v the mean of
the two motor speeds, and translates all four corners by that same
displacement. -/
theorem claim_C4_addReq (s : SumoState) (r : SumoReq) :
    s.addReq r =
      let new_heading :=
        rmod (s.dir + STEP_SIZE * (r.motor_r - r.motor_l) / SUMO_SIZE) (2 * Real.pi)
      let velocity := (r.motor_l + r.motor_r) / 2
      let displacement : Vec2 :=
        ⟨Real.cos new_heading * velocity, Real.sin new_heading * velocity⟩
      { center := s.center.add displacement
        dir := new_heading
        corners := s.corners.map (fun corner => corner.add displacement) } := by
  have harg : (r.motor_r - r.motor_l) / SUMO_SIZE + s.dir
      = s.dir + STEP_SIZE * (r.motor_r - r.motor_l) / SUMO_SIZE := by
    rw [STEP_SIZE]; ring
  simp only [SumoState.addReq, SumoReq.vel, harg]

/-- C1 (amended): the physics step yields Continuing (a some value) iff
both centers of the INPUT states — the pre-update states, not the states
produced by the tick — lie strictly inside the tatami radius; at input
distance exactly TATAMI_SIZE or beyond the round ends, at TATAMI_SIZE − ε
it continues. -/
theorem claim_C1_continuing_iff (sys : SumoState × SumoState) (reqs : SumoReq × SumoReq) :
    (update sys reqs).isSome = true ↔
      (sys.1.center.dist ORIGIN < TATAMI_SIZE ∧ sys.2.center.dist ORIGIN < TATAMI_SIZE) := by
  simp only [update]
  by_cases h : sys.1.center.dist ORIGIN < TATAMI_SIZE ∧ sys.2.center.dist ORIGIN < TATAMI_SIZE
  · rw [if_pos h]
    simpa using h
  · rw [if_neg h]
    simpa using h

/-- C1 counterexample: a tick whose input centers are at distance 10 from
the origin but whose updated first center lands at distance 40 ≥
TATAMI_SIZE still yields Continuing carrying that out-of-tatami state: the
boundary test reads the pre-update centers, not the post-update ones. -/
theorem claim_C1_cx :
    (update (⟨⟨0, 10⟩, Real.pi / 2, K0⟩, ⟨⟨0, -10⟩, 0, K0⟩) (⟨30, 30⟩, ⟨0, 0⟩)).map
        (fun p => p.1.center) = some ⟨0, 40⟩ ∧
    TATAMI_SIZE ≤ Vec2.dist ⟨0, 40⟩ ORIGIN := by
  have hpi := Real.pi_pos
  have hd0 : rmod (((30:ℝ) - 30) / SUMO_SIZE + Real.pi / 2) (2 * Real.pi) = Real.pi / 2 := by
    rw [show ((30:ℝ) - 30) / SUMO_SIZE + Real.pi / 2 = Real.pi / 2 by rw [SUMO_SIZE]; ring]
    exact rmod_eq_self (by positivity) (by positivity) (by linarith)
  have hsy0 : (⟨⟨0, 10⟩, Real.pi / 2, K0⟩ : SumoState).addReq ⟨30, 30⟩
      = ⟨⟨0, 40⟩, Real.pi / 2, ⟨⟨0, 30⟩, ⟨0, 30⟩, ⟨0, 30⟩, ⟨0, 30⟩⟩⟩ := by
    rw [addReq_eval _ _ _ hd0]
    ext <;>
      norm_num [SumoReq.vel, Corners.map, K0, ORIGIN, Vec2.add,
        Real.cos_pi_div_two, Real.sin_pi_div_two]
  have hsy1 : (⟨⟨0, -10⟩, 0, K0⟩ : SumoState).addReq ⟨0, 0⟩ = ⟨⟨0, -10⟩, 0, K0⟩ :=
    addReq_zero _ (le_refl 0) (by positivity)
  have htheta : ((⟨0, 40⟩ : Vec2).sub ⟨0, -10⟩).origin_dir = 0 := by
    simp [Vec2.sub, Vec2.origin_dir]
  have hr0 : (⟨⟨0, 40⟩, Real.pi / 2, ⟨⟨0, 30⟩, ⟨0, 30⟩, ⟨0, 30⟩, ⟨0, 30⟩⟩⟩ : SumoState).radius_towards 0
      = SUMO_SIZE := by
    apply radius_towards_of_rel_zero
    rw [show (0:ℝ) - (⟨⟨0, 40⟩, Real.pi / 2, ⟨⟨0, 30⟩, ⟨0, 30⟩, ⟨0, 30⟩, ⟨0, 30⟩⟩⟩ : SumoState).dir
        = ((-1 : ℤ) : ℝ) * (Real.pi / 2) by push_cast; ring]
    exact rmod_int_mul (-1) (by positivity : (0:ℝ) < Real.pi / 2).ne'
  have hr1 : (⟨⟨0, -10⟩, 0, K0⟩ : SumoState).radius_towards 0 = SUMO_SIZE := by
    apply radius_towards_of_rel_zero
    rw [show (0:ℝ) - (⟨⟨0, -10⟩, 0, K0⟩ : SumoState).dir = 0 by norm_num]
    exact rmod_zero_left _
  have hdist : Vec2.dist ⟨(0:ℝ), 10⟩ ⟨0, -10⟩ = 20 := by
    rw [dist_eval]
    exact sqrt_eq_of_sq (by norm_num) (by norm_num)
  have hcol : ¬ (Vec2.dist (⟨⟨0, 10⟩, Real.pi / 2, K0⟩ : SumoState).center
        (⟨⟨0, -10⟩, 0, K0⟩ : SumoState).center
      < ((⟨⟨0, 10⟩, Real.pi / 2, K0⟩ : SumoState).addReq ⟨30, 30⟩).radius_towards
          ((((⟨⟨0, 10⟩, Real.pi / 2, K0⟩ : SumoState).addReq ⟨30, 30⟩).center.sub
            ((⟨⟨0, -10⟩, 0, K0⟩ : SumoState).addReq ⟨0, 0⟩).center).origin_dir)
        + ((⟨⟨0, -10⟩, 0, K0⟩ : SumoState).addReq ⟨0, 0⟩).radius_towards
          ((((⟨⟨0, 10⟩, Real.pi / 2, K0⟩ : SumoState).addReq ⟨30, 30⟩).center.sub
            ((⟨⟨0, -10⟩, 0, K0⟩ : SumoState).addReq ⟨0, 0⟩).center).origin_dir)) := by
    rw [hsy0, hsy1]
    show ¬ (Vec2.dist ⟨(0:ℝ), 10⟩ ⟨0, -10⟩ < _)
    rw [htheta, hr0, hr1, hdist, SUMO_SIZE]
    norm_num
  rw [update_no_collision _ _ _ _ hcol]
  have hb0 : Vec2.dist ⟨(0:ℝ), 10⟩ ORIGIN < TATAMI_SIZE := by
    rw [dist_origin_eval, TATAMI_SIZE, sqrt_eq_of_sq (by norm_num : (0:ℝ) ≤ 10) (by norm_num)]
    norm_num
  have hb1 : Vec2.dist ⟨(0:ℝ), -10⟩ ORIGIN < TATAMI_SIZE := by
    rw [dist_origin_eval, TATAMI_SIZE, sqrt_eq_of_sq (by norm_num : (0:ℝ) ≤ 10) (by norm_num)]
    norm_num
  refine ⟨?_, ?_⟩
  · rw [if_pos ⟨hb0, hb1⟩, hsy0, hsy1]
    rfl
  · rw [dist_origin_eval, TATAMI_SIZE, sqrt_eq_of_sq (by norm_num : (0:ℝ) ≤ 40) (by norm_num)]
    norm_num

/-- C2 (amended): whenever at least one robot (in particular exactly one)
is down, the physics step returns the single terminal value none: round
termination is reported as data, never by panic, but the outcome carries
no identification of which robot left the arena. -/
theorem claim_C2_round_over_none (sys : SumoState × SumoState) (reqs : SumoReq × SumoReq)
    (h : TATAMI_SIZE ≤ sys.1.center.dist ORIGIN ∨ TATAMI_SIZE ≤ sys.2.center.dist ORIGIN) :
    update sys reqs = none := by
  simp only [update]
  rw [if_neg]
  rintro ⟨h1, h2⟩
  rcases h with h | h <;> linarith

/-- Witness for claim_C2_round_over_none: the first robot at (0, 25) is
down and the step returns none. -/
theorem claim_C2_round_over_none_witness :
    (TATAMI_SIZE ≤ Vec2.dist ⟨0, 25⟩ ORIGIN ∨ TATAMI_SIZE ≤ Vec2.dist ⟨0, -10⟩ ORIGIN) ∧
    update (⟨⟨0, 25⟩, 0, K0⟩, ⟨⟨0, -10⟩, 0, K0⟩) (⟨1, 2⟩, ⟨3, 4⟩) = none := by
  have h : TATAMI_SIZE ≤ Vec2.dist ⟨(0:ℝ), 25⟩ ORIGIN := by
    rw [dist_origin_eval, TATAMI_SIZE, sqrt_eq_of_sq (by norm_num : (0:ℝ) ≤ 25) (by norm_num)]
    norm_num
  exact ⟨Or.inl h, claim_C2_round_over_none _ _ (Or.inl h)⟩

/-- C2 counterexample: a configuration in which only the first robot is
down and its mirror in which only the second robot is down produce the
very same outcome value none: the two round-over outcomes are not
distinguishable. -/
theorem claim_C2_cx :
    TATAMI_SIZE ≤ Vec2.dist ⟨0, 25⟩ ORIGIN ∧
    Vec2.dist ⟨0, -10⟩ ORIGIN < TATAMI_SIZE ∧
    update (⟨⟨0, 25⟩, 0, K0⟩, ⟨⟨0, -10⟩, 0, K0⟩) (⟨0, 0⟩, ⟨0, 0⟩) = none ∧
    update (⟨⟨0, -10⟩, 0, K0⟩, ⟨⟨0, 25⟩, 0, K0⟩) (⟨0, 0⟩, ⟨0, 0⟩) = none := by
  have h25 : Vec2.dist ⟨(0:ℝ), 25⟩ ORIGIN = 25 := by
    rw [dist_origin_eval]
    exact sqrt_eq_of_sq (by norm_num) (by norm_num)
  have h10 : Vec2.dist ⟨(0:ℝ), -10⟩ ORIGIN = 10 := by
    rw [dist_origin_eval]
    exact sqrt_eq_of_sq (by norm_num) (by norm_num)
  refine ⟨by rw [h25, TATAMI_SIZE]; norm_num, by rw [h10, TATAMI_SIZE]; norm_num, ?_, ?_⟩
  · simp only [update]
    rw [if_neg]
    rintro ⟨h1, _⟩
    rw [h25, TATAMI_SIZE] at h1
    norm_num at h1
  · simp only [update]
    rw [if_neg]
    rintro ⟨_, h2⟩
    rw [h25, TATAMI_SIZE] at h2
    norm_num at h2

/-- C5 (amended): for equal motor speeds the angular increment is 0 and,
as long as the old heading lies in [0, 2π), the stored heading (the Rust
remainder of the unchanged heading by 2π) equals the old one; for opposite
motor speeds the velocity is 0 and neither the center nor any corner
moves, while the heading does change provided additionally the angular
increment 2b / SUMO_SIZE lies strictly between 0 and 2π. -/
theorem claim_C5_kinematics (s : SumoState) (a b : ℝ)
    (h0 : 0 ≤ s.dir) (h1 : s.dir < 2 * Real.pi)
    (h2 : 0 < 2 * b / SUMO_SIZE) (h3 : 2 * b / SUMO_SIZE < 2 * Real.pi) :
    (s.addReq ⟨a, a⟩).dir = s.dir ∧
    SumoReq.vel ⟨-b, b⟩ = 0 ∧
    (s.addReq ⟨-b, b⟩).center = s.center ∧
    (s.addReq ⟨-b, b⟩).corners = s.corners ∧
    (s.addReq ⟨-b, b⟩).dir ≠ s.dir := by
  have hpi := Real.pi_pos
  have hda : rmod (((a:ℝ) - a) / SUMO_SIZE + s.dir) (2 * Real.pi) = s.dir := by
    rw [show ((a:ℝ) - a) / SUMO_SIZE + s.dir = s.dir by rw [SUMO_SIZE]; ring]
    exact rmod_eq_self (by positivity) h0 h1
  have hvz : SumoReq.vel ⟨-b, b⟩ = 0 := by
    simp [SumoReq.vel]
  have harg : (b - -b) / SUMO_SIZE + s.dir = 2 * b / SUMO_SIZE + s.dir := by
    ring
  have hdir : (s.addReq ⟨-b, b⟩).dir = rmod (2 * b / SUMO_SIZE + s.dir) (2 * Real.pi) := by
    simp only [SumoState.addReq, harg]
  refine ⟨?_, hvz, ?_, ?_, ?_⟩
  · rw [addReq_eval _ _ _ hda]
  · rw [addReq_eval _ _ _ (by rw [harg] : rmod ((b - -b) / SUMO_SIZE + s.dir) (2 * Real.pi)
        = rmod (2 * b / SUMO_SIZE + s.dir) (2 * Real.pi)), hvz]
    ext <;> simp [Vec2.add]
  · rw [addReq_eval _ _ _ (by rw [harg] : rmod ((b - -b) / SUMO_SIZE + s.dir) (2 * Real.pi)
        = rmod (2 * b / SUMO_SIZE + s.dir) (2 * Real.pi)), hvz]
    ext <;> simp [Corners.map, Vec2.add]
  · rw [hdir]
    rcases lt_or_le (2 * b / SUMO_SIZE + s.dir) (2 * Real.pi) with hlt | hge
    · rw [rmod_eq_self (by positivity) (by linarith) hlt]
      intro hcon
      have : 2 * b / SUMO_SIZE = 0 := by linarith
      linarith
    · rw [rmod_eq_sub (by positivity) hge (by linarith)]
      intro hcon
      have : 2 * b / SUMO_SIZE = 2 * Real.pi := by linarith
      linarith

/-- Witness state for the kinematics property: heading π/2, center (1, 2). -/
def c5s : SumoState := ⟨⟨1, 2⟩, Real.pi / 2, K0⟩

/-- Witness for claim_C5_kinematics at heading π/2 with motor values a = 3
and b = 1. -/
theorem claim_C5_kinematics_witness :
    0 ≤ c5s.dir ∧ c5s.dir < 2 * Real.pi ∧
    0 < 2 * 1 / SUMO_SIZE ∧ 2 * 1 / SUMO_SIZE < 2 * Real.pi ∧
    ((c5s.addReq ⟨3, 3⟩).dir = c5s.dir ∧
     SumoReq.vel ⟨-1, 1⟩ = 0 ∧
     (c5s.addReq ⟨-1, 1⟩).center = c5s.center ∧
     (c5s.addReq ⟨-1, 1⟩).corners = c5s.corners ∧
     (c5s.addReq ⟨-1, 1⟩).dir ≠ c5s.dir) := by
  have hpi3 := Real.pi_gt_three
  have h0 : 0 ≤ c5s.dir := by
    show (0:ℝ) ≤ Real.pi / 2
    positivity
  have h1 : c5s.dir < 2 * Real.pi := by
    show Real.pi / 2 < 2 * Real.pi
    linarith
  have h2 : 0 < 2 * 1 / SUMO_SIZE := by
    rw [SUMO_SIZE]
    norm_num
  have h3 : 2 * 1 / SUMO_SIZE < 2 * Real.pi := by
    rw [SUMO_SIZE]
    norm_num
    linarith
  exact ⟨h0, h1, h2, h3, claim_C5_kinematics c5s 3 1 h0 h1 h2 h3⟩

/-- C5 counterexample: with equal motor speeds (both 0) but heading 5π/2,
the stored heading is the remainder π/2, not the unchanged 5π/2: the claim
that equal speeds always leave the heading unchanged fails. -/
theorem claim_C5_cx :
    ((⟨ORIGIN, 5 * Real.pi / 2, K0⟩ : SumoState).addReq ⟨0, 0⟩).dir = Real.pi / 2 ∧
    Real.pi / 2 ≠ 5 * Real.pi / 2 := by
  have hpi := Real.pi_pos
  constructor
  · have hd : rmod (((0:ℝ) - 0) / SUMO_SIZE + 5 * Real.pi / 2) (2 * Real.pi)
        = Real.pi / 2 := by
      rw [show ((0:ℝ) - 0) / SUMO_SIZE + 5 * Real.pi / 2 = 5 * Real.pi / 2 by
        rw [SUMO_SIZE]; ring]
      rw [rmod_eq_sub (by positivity) (by linarith) (by linarith)]
      ring
    rw [addReq_eval _ _ _ hd]
  · intro hcon
    have : Real.pi = 0 := by linarith
    linarith

/-- One tick of the Round 1 start configuration under zero motor commands
returns exactly the start configuration. -/
theorem update_round1_fixed :
    update (round_start Round.Round1) (⟨0, 0⟩, ⟨0, 0⟩) = some (round_start Round.Round1) := by
  have hpi := Real.pi_pos
  have hrs : round_start Round.Round1
      = (⟨⟨X_INIT_POS, 0⟩, Real.pi,
          ⟨⟨X_INIT_POS + SUMO_SIZE / 2, SUMO_SIZE / 2⟩,
           ⟨X_INIT_POS + SUMO_SIZE / 2, -SUMO_SIZE / 2⟩,
           ⟨X_INIT_POS - SUMO_SIZE / 2, SUMO_SIZE / 2⟩,
           ⟨X_INIT_POS - SUMO_SIZE / 2, -SUMO_SIZE / 2⟩⟩⟩,
         ⟨⟨-X_INIT_POS, 0⟩, 0,
          ⟨⟨-X_INIT_POS + SUMO_SIZE / 2, SUMO_SIZE / 2⟩,
           ⟨-X_INIT_POS + SUMO_SIZE / 2, -SUMO_SIZE / 2⟩,
           ⟨-X_INIT_POS - SUMO_SIZE / 2, SUMO_SIZE / 2⟩,
           ⟨-X_INIT_POS - SUMO_SIZE / 2, -SUMO_SIZE / 2⟩⟩⟩) := rfl
  rw [hrs]
  have haddA : (⟨⟨X_INIT_POS, 0⟩, Real.pi,
      ⟨⟨X_INIT_POS + SUMO_SIZE / 2, SUMO_SIZE / 2⟩,
       ⟨X_INIT_POS + SUMO_SIZE / 2, -SUMO_SIZE / 2⟩,
       ⟨X_INIT_POS - SUMO_SIZE / 2, SUMO_SIZE / 2⟩,
       ⟨X_INIT_POS - SUMO_SIZE / 2, -SUMO_SIZE / 2⟩⟩⟩ : SumoState).addReq ⟨0, 0⟩
      = ⟨⟨X_INIT_POS, 0⟩, Real.pi,
      ⟨⟨X_INIT_POS + SUMO_SIZE / 2, SUMO_SIZE / 2⟩,
       ⟨X_INIT_POS + SUMO_SIZE / 2, -SUMO_SIZE / 2⟩,
       ⟨X_INIT_POS - SUMO_SIZE / 2, SUMO_SIZE / 2⟩,
       ⟨X_INIT_POS - SUMO_SIZE / 2, -SUMO_SIZE / 2⟩⟩⟩ :=
    addReq_zero _ (by positivity) (by show Real.pi < 2 * Real.pi; linarith)
  have haddB : (⟨⟨-X_INIT_POS, 0⟩, 0,
      ⟨⟨-X_INIT_POS + SUMO_SIZE / 2, SUMO_SIZE / 2⟩,
       ⟨-X_INIT_POS + SUMO_SIZE / 2, -SUMO_SIZE / 2⟩,
       ⟨-X_INIT_POS - SUMO_SIZE / 2, SUMO_SIZE / 2⟩,
       ⟨-X_INIT_POS - SUMO_SIZE / 2, -SUMO_SIZE / 2⟩⟩⟩ : SumoState).addReq ⟨0, 0⟩
      = ⟨⟨-X_INIT_POS, 0⟩, 0,
      ⟨⟨-X_INIT_POS + SUMO_SIZE / 2, SUMO_SIZE / 2⟩,
       ⟨-X_INIT_POS + SUMO_SIZE / 2, -SUMO_SIZE / 2⟩,
       ⟨-X_INIT_POS - SUMO_SIZE / 2, SUMO_SIZE / 2⟩,
       ⟨-X_INIT_POS - SUMO_SIZE / 2, -SUMO_SIZE / 2⟩⟩⟩ :=
    addReq_zero _ (le_refl _) (by positivity)
  have htheta : ((⟨X_INIT_POS, 0⟩ : Vec2).sub ⟨-X_INIT_POS, 0⟩).origin_dir = 0 := by
    simp [Vec2.sub, Vec2.origin_dir]
  have hrA : (⟨⟨X_INIT_POS, 0⟩, Real.pi,
      ⟨⟨X_INIT_POS + SUMO_SIZE / 2, SUMO_SIZE / 2⟩,
       ⟨X_INIT_POS + SUMO_SIZE / 2, -SUMO_SIZE / 2⟩,
       ⟨X_INIT_POS - SUMO_SIZE / 2, SUMO_SIZE / 2⟩,
       ⟨X_INIT_POS - SUMO_SIZE / 2, -SUMO_SIZE / 2⟩⟩⟩ : SumoState).radius_towards 0
      = SUMO_SIZE := by
    apply radius_towards_of_rel_zero
    rw [show (0:ℝ) - (⟨⟨X_INIT_POS, 0⟩, Real.pi, _⟩ : SumoState).dir
        = ((-2 : ℤ) : ℝ) * (Real.pi / 2) by push_cast; ring]
    exact rmod_int_mul (-2) (by positivity : (0:ℝ) < Real.pi / 2).ne'
  have hrB : (⟨⟨-X_INIT_POS, 0⟩, 0,
      ⟨⟨-X_INIT_POS + SUMO_SIZE / 2, SUMO_SIZE / 2⟩,
       ⟨-X_INIT_POS + SUMO_SIZE / 2, -SUMO_SIZE / 2⟩,
       ⟨-X_INIT_POS - SUMO_SIZE / 2, SUMO_SIZE / 2⟩,
       ⟨-X_INIT_POS - SUMO_SIZE / 2, -SUMO_SIZE / 2⟩⟩⟩ : SumoState).radius_towards 0
      = SUMO_SIZE := by
    apply radius_towards_of_rel_zero
    rw [show (0:ℝ) - (⟨⟨-X_INIT_POS, 0⟩, 0, _⟩ : SumoState).dir = 0 by norm_num]
    exact rmod_zero_left _
  have hdist : Vec2.dist ⟨X_INIT_POS, 0⟩ ⟨-X_INIT_POS, 0⟩ = 20 := by
    rw [X_INIT_POS, dist_eval]
    exact sqrt_eq_of_sq (by norm_num) (by norm_num)
  have hcol : ¬ (Vec2.dist ⟨X_INIT_POS, 0⟩ ⟨-X_INIT_POS, 0⟩ < SUMO_SIZE + SUMO_SIZE) := by
    rw [hdist, SUMO_SIZE]
    norm_num
  rw [update_no_collision]
  · have hbA : Vec2.dist ⟨X_INIT_POS, 0⟩ ORIGIN < TATAMI_SIZE := by
      rw [X_INIT_POS, TATAMI_SIZE, dist_origin_eval,
        sqrt_eq_of_sq (by norm_num : (0:ℝ) ≤ 10) (by norm_num)]
      norm_num
    have hbB : Vec2.dist ⟨-X_INIT_POS, 0⟩ ORIGIN < TATAMI_SIZE := by
      rw [X_INIT_POS, TATAMI_SIZE, dist_origin_eval,
        sqrt_eq_of_sq (by norm_num : (0:ℝ) ≤ 10) (by norm_num)]
      norm_num
    rw [if_pos ⟨hbA, hbB⟩, haddA, haddB]
  · rw [haddA, haddB, htheta, hrA, hrB]
    exact hcol

/-- C7: in the Round 1 initial configuration (robot A at (10, 0) heading π,
robot B at (−10, 0) heading 0) with both strategies returning (0, 0) every
tick, every tick yields Continuing with the state pair equal to the start
pair: centers and headings never change and the round never ends. -/
theorem claim_C7_round1_fixed_point (n : ℕ) :
    probe_round1_zero n = some (round_start Round.Round1) := by
  induction n with
  | zero => rfl
  | succ n ih =>
    simp only [probe_round1_zero, ih, Option.some_bind]
    exact update_round1_fixed

/-- C9: whenever the collision test succeeds (and the boundary test keeps
the round going), the returned pair is built from the pre-update INPUT
states, each translated by the push vector or its negation according to
the sign of the velocity difference; the provisional kinematic states of
the tick are discarded. -/
theorem claim_C9_push_from_inputs (sysl sysr : SumoState) (reql reqr : SumoReq)
    (hcol : sysl.center.dist sysr.center
        < (sysl.addReq reql).radius_towards
            (((sysl.addReq reql).center.sub (sysr.addReq reqr).center).origin_dir)
          + (sysr.addReq reqr).radius_towards
            (((sysl.addReq reql).center.sub (sysr.addReq reqr).center).origin_dir))
    (hb1 : sysl.center.dist ORIGIN < TATAMI_SIZE)
    (hb2 : sysr.center.dist ORIGIN < TATAMI_SIZE) :
    update (sysl, sysr) (reql, reqr) =
      (let vatt := reqr.vel - reql.vel
       let gdir := (REQ_CASTER.addReq reqr).dir
       let p : Vec2 :=
         ⟨Real.cos gdir * vatt / PUSH_FRICTION, Real.sin gdir * vatt / PUSH_FRICTION⟩
       some (if 0 < vatt then (sysl.addVec p, sysr.addVec (ORIGIN.sub p))
             else (sysl.addVec (ORIGIN.sub p), sysr.addVec p))) := by
  simp only [update]
  rw [if_pos ⟨hb1, hb2⟩, if_pos hcol]
  by_cases hv : 0 < reqr.vel - reql.vel
  · rw [if_pos hv, if_pos hv]
  · rw [if_neg hv, if_neg hv]
    congr 2
    ext <;> simp [Vec2.sub, ORIGIN]

/-- First input robot of the colliding witness scenario. -/
def c9sl : SumoState := ⟨⟨0, 1⟩, 0, K0⟩

/-- Second input robot of the colliding witness scenario. -/
def c9sr : SumoState := ⟨⟨1, 2⟩, 0, K0⟩

/-- Motor command of the first robot in the colliding witness scenario. -/
def c9rl : SumoReq := ⟨0, 0⟩

/-- Motor command of the second robot in the colliding witness scenario. -/
def c9rr : SumoReq := ⟨1, 1⟩

/-- Witness for claim_C9_push_from_inputs: the two robots at (0, 1) and
(1, 2) with commands (0, 0) and (1, 1) collide, stay inside the tatami,
and the step returns the pushed input states. -/
theorem claim_C9_push_from_inputs_witness :
    (c9sl.center.dist c9sr.center
        < (c9sl.addReq c9rl).radius_towards
            (((c9sl.addReq c9rl).center.sub (c9sr.addReq c9rr).center).origin_dir)
          + (c9sr.addReq c9rr).radius_towards
            (((c9sl.addReq c9rl).center.sub (c9sr.addReq c9rr).center).origin_dir)) ∧
    c9sl.center.dist ORIGIN < TATAMI_SIZE ∧
    c9sr.center.dist ORIGIN < TATAMI_SIZE ∧
    update (c9sl, c9sr) (c9rl, c9rr) =
      (let vatt := c9rr.vel - c9rl.vel
       let gdir := (REQ_CASTER.addReq c9rr).dir
       let p : Vec2 :=
         ⟨Real.cos gdir * vatt / PUSH_FRICTION, Real.sin gdir * vatt / PUSH_FRICTION⟩
       some (if 0 < vatt then (c9sl.addVec p, c9sr.addVec (ORIGIN.sub p))
             else (c9sl.addVec (ORIGIN.sub p), c9sr.addVec p))) := by
  have hpi := Real.pi_pos
  have haddl : c9sl.addReq c9rl = c9sl :=
    addReq_zero _ (by show (0:ℝ) ≤ 0; norm_num) (by show (0:ℝ) < 2 * Real.pi; positivity)
  have hdr : rmod ((c9rr.motor_r - c9rr.motor_l) / SUMO_SIZE + c9sr.dir) (2 * Real.pi) = 0 := by
    rw [show (c9rr.motor_r - c9rr.motor_l) / SUMO_SIZE + c9sr.dir = 0 by
      show ((1:ℝ) - 1) / SUMO_SIZE + 0 = 0
      rw [SUMO_SIZE]
      norm_num]
    exact rmod_zero_left _
  have haddr : c9sr.addReq c9rr = ⟨⟨2, 2⟩, 0, ⟨⟨1, 0⟩, ⟨1, 0⟩, ⟨1, 0⟩, ⟨1, 0⟩⟩⟩ := by
    rw [addReq_eval _ _ _ hdr]
    ext <;>
      norm_num [c9sr, c9rr, SumoReq.vel, Corners.map, K0, ORIGIN, Vec2.add,
        Real.cos_zero, Real.sin_zero]
  have htheta : ((c9sl.center).sub
      (⟨⟨2, 2⟩, 0, ⟨⟨1, 0⟩, ⟨1, 0⟩, ⟨1, 0⟩, ⟨1, 0⟩⟩⟩ : SumoState).center).origin_dir
      = Real.arctan 2 := by
    show ((⟨0, 1⟩ : Vec2).sub ⟨2, 2⟩).origin_dir = Real.arctan 2
    norm_num [Vec2.sub, Vec2.origin_dir]
  have harct2pos : 0 < Real.arctan 2 := by
    have h := Real.arctan_strictMono (show (0:ℝ) < 2 by norm_num)
    rwa [Real.arctan_zero] at h
  have harctlt : Real.arctan 2 < Real.pi / 2 := Real.arctan_lt_pi_div_two 2
  have hrel : rmod (Real.arctan 2 - 0) (Real.pi / 2) = Real.arctan 2 := by
    rw [sub_zero]
    exact rmod_eq_self (by positivity) harct2pos.le harctlt
  have hgt : ¬ (Real.arctan 2 ≤ Real.pi / 4) := by
    rw [not_le, ← Real.arctan_one]
    exact Real.arctan_strictMono (by norm_num)
  have hM : 0 ≤ M := by
    rw [M, SUMO_SIZE]
    apply div_nonneg _ hpi.le
    have h1 : (1:ℝ) ≤ Real.sqrt 2 := by
      rw [show (1:ℝ) = Real.sqrt 1 by rw [Real.sqrt_one]]
      exact Real.sqrt_le_sqrt (by norm_num)
    nlinarith
  have hrad : ∀ s : SumoState, s.dir = 0 → s.radius_towards (Real.arctan 2)
      = M * (Real.pi / 2 - Real.arctan 2) + SUMO_SIZE := by
    intro s hs
    simp only [SumoState.radius_towards, hs, hrel]
    rw [if_neg hgt]
  have hdistlr : c9sl.center.dist c9sr.center = Real.sqrt 2 := by
    show Vec2.dist ⟨0, 1⟩ ⟨1, 2⟩ = Real.sqrt 2
    rw [dist_eval]
    congr 1
    norm_num
  have hsqrt2lt : Real.sqrt 2 < 2 := by
    have h4 : Real.sqrt 4 = 2 := sqrt_eq_of_sq (by norm_num) (by norm_num)
    have h := Real.sqrt_lt_sqrt (show (0:ℝ) ≤ 2 by norm_num) (show (2:ℝ) < 4 by norm_num)
    rwa [h4] at h
  have hcol : c9sl.center.dist c9sr.center
      < (c9sl.addReq c9rl).radius_towards
          (((c9sl.addReq c9rl).center.sub (c9sr.addReq c9rr).center).origin_dir)
        + (c9sr.addReq c9rr).radius_towards
          (((c9sl.addReq c9rl).center.sub (c9sr.addReq c9rr).center).origin_dir) := by
    rw [haddl, haddr, htheta, hrad c9sl rfl, hrad _ rfl, hdistlr, SUMO_SIZE]
    have hprod : 0 ≤ M * (Real.pi / 2 - Real.arctan 2) :=
      mul_nonneg hM (by linarith)
    linarith
  have hb1 : c9sl.center.dist ORIGIN < TATAMI_SIZE := by
    show Vec2.dist ⟨0, 1⟩ ORIGIN < TATAMI_SIZE
    rw [dist_origin_eval, TATAMI_SIZE, show (0:ℝ) * 0 + 1 * 1 = 1 by norm_num,
      Real.sqrt_one]
    norm_num
  have hb2 : c9sr.center.dist ORIGIN < TATAMI_SIZE := by
    show Vec2.dist ⟨1, 2⟩ ORIGIN < TATAMI_SIZE
    rw [dist_origin_eval, TATAMI_SIZE]
    have h := Real.sqrt_lt_sqrt (show (0:ℝ) ≤ 1 * 1 + 2 * 2 by norm_num)
      (show (1:ℝ) * 1 + 2 * 2 < 400 by norm_num)
    rwa [sqrt_eq_of_sq (show (0:ℝ) ≤ 20 by norm_num) (show (400:ℝ) = 20 ^ 2 by norm_num)] at h
  exact ⟨hcol, hb1, hb2, claim_C9_push_from_inputs c9sl c9sr c9rl c9rr hcol hb1 hb2⟩

end Sumo
